import Mathlib

/-!
Verification of the YAML-configuration-generator agent.

The development shallowly embeds the two drivers of the repository:
`icl_agent.py` (namespace `ICL`) and the UI-embedded copy in `app.py`
(namespace `App`).  The Python string primitives used by
`_clean_response` (the two `re.sub` calls, `str.replace`, `str.strip`,
`str.splitlines`) are modelled as executable functions on `List Char`.
The external collaborators (the remote generative model, the PyYAML
parser, the PDF extractor, the filesystem) are modelled as explicit
outcome parameters: a call either yields a value or raises, and the
agent code is translated as the exact branch structure it executes on
each outcome.  For the serialize/sanitize/parse round trip, the external
PyYAML serializer and parser are additionally modelled concretely on the
fragment they are exercised on there: flat block mappings of plain
alphanumeric scalars, one `key: value` per line, documents separated by
a `---` line (spec sections 3, 4.3, 4.6 and the glossary describe
exactly this block-style, insertion-ordered fragment).
-/

/-- The backquote character, written via its code point so that the
character itself never appears in the code. -/
def backquote : Char := Char.ofNat 96

/-- Characters allowed by the `[yamlYAML]` class of the opening-fence
regular expression in `_clean_response`. -/
def fenceTag (c : Char) : Bool :=
  c == 'y' || c == 'a' || c == 'm' || c == 'l' ||
  c == 'Y' || c == 'A' || c == 'M' || c == 'L'

/-- Model of `re.sub(r'```[yamlYAML]*\n', '', text)`: scan left to
right; at a position starting with three backquotes followed by a
(greedy) run of `[yamlYAML]` characters and then a newline, delete the
whole match and continue after it; otherwise keep the character and
move on.  Greediness is equivalent to requiring the first non-tag
character after the run to be the newline, since a newline is never a
tag character. -/
def subOpenFence : List Char → List Char
  | [] => []
  | c :: rest =>
    if c = backquote ∧ rest.take 2 = [backquote, backquote] then
      match hm : (rest.drop 2).dropWhile fenceTag with
      | '\n' :: rem => subOpenFence rem
      | _ => c :: subOpenFence rest
    else c :: subOpenFence rest
termination_by l => l.length
decreasing_by
  · have h1 : ((rest.drop 2).dropWhile fenceTag).length ≤ (rest.drop 2).length :=
      (List.dropWhile_suffix _).length_le
    rw [hm] at h1
    simp [List.length_drop] at h1 ⊢
    omega
  · simp
  · simp

/-- Model of `text.replace('```', '')`: delete every (leftmost,
non-overlapping) occurrence of three consecutive backquotes. -/
def removeTriple : List Char → List Char
  | [] => []
  | c :: rest =>
    if c = backquote ∧ rest.take 2 = [backquote, backquote] then
      removeTriple (rest.drop 2)
    else c :: removeTriple rest
termination_by l => l.length
decreasing_by
  · simp [List.length_drop]; omega
  · simp

/-- Model of `re.sub(r'#.*$', '', text, flags=re.MULTILINE)`: on each
line, delete from the first `#` to the end of the line (newlines are
kept, since `.` does not match them). -/
def stripComments : List Char → List Char
  | [] => []
  | c :: rest =>
    if c = '#' then stripComments (rest.dropWhile (fun x => !(x == '\n')))
    else c :: stripComments rest
termination_by l => l.length
decreasing_by
  · have h1 : (rest.dropWhile (fun x => !(x == '\n'))).length ≤ rest.length :=
      (List.dropWhile_suffix _).length_le
    simp
    omega
  · simp

/-- The whitespace characters removed by Python's `str.strip()` (ASCII
part; exotic Unicode spaces never arise in the texts considered). -/
def isPySpace (c : Char) : Bool :=
  c == ' ' || c == '\t' || c == '\n' || c == '\r' ||
  c == Char.ofNat 11 || c == Char.ofNat 12

/-- Model of Python's `str.strip()`. -/
def stripPy (l : List Char) : List Char :=
  ((l.dropWhile isPySpace).reverse.dropWhile isPySpace).reverse

/-- The line-boundary characters of Python's `str.splitlines()` (ASCII
and Unicode line separators). -/
def isBreakChar (c : Char) : Bool :=
  c == '\n' || c == '\r' || c == Char.ofNat 11 || c == Char.ofNat 12 ||
  c == Char.ofNat 28 || c == Char.ofNat 29 || c == Char.ofNat 30 ||
  c == Char.ofNat 133 || c == Char.ofNat 8232 || c == Char.ofNat 8233

/-- Predicate for characters that do not end a line. -/
def nlPred (c : Char) : Bool := !isBreakChar c

/-- Model of Python's `str.splitlines()`: split at every line boundary,
treating a `\r\n` pair as a single boundary, with no trailing empty
line for a trailing boundary. -/
def splitlinesPy (l : List Char) : List (List Char) :=
  match h : l.dropWhile nlPred with
  | [] => if l = [] then [] else [l.takeWhile nlPred]
  | '\r' :: '\n' :: r => l.takeWhile nlPred :: splitlinesPy r
  | _ :: r => l.takeWhile nlPred :: splitlinesPy r
termination_by l.length
decreasing_by
  · have h1 : (l.dropWhile nlPred).length ≤ l.length := (List.dropWhile_suffix _).length_le
    rw [h] at h1
    simp at h1 ⊢
    omega
  · have h1 : (l.dropWhile nlPred).length ≤ l.length := (List.dropWhile_suffix _).length_le
    rw [h] at h1
    simp at h1 ⊢
    omega

/-- Model of `line.replace('\t', '  ')`. -/
def replaceTabs : List Char → List Char
  | [] => []
  | c :: rest =>
    if c = '\t' then ' ' :: ' ' :: replaceTabs rest
    else c :: replaceTabs rest

/-- Model of `'\n'.join(lines)`. -/
def joinNL : List (List Char) → List Char
  | [] => []
  | [l] => l
  | l :: ls => l ++ '\n' :: joinNL ls

/-- Whether a character list contains three consecutive backquotes
(residual fenced-code syntax). -/
def containsTriple : List Char → Bool
  | c1 :: c2 :: c3 :: rest =>
    (decide (c1 = backquote) && decide (c2 = backquote) && decide (c3 = backquote))
      || containsTriple (c2 :: c3 :: rest)
  | _ => false

/-- Number of leading backquotes of a character list. -/
def leadBT : List Char → Nat
  | [] => 0
  | c :: rest => if c = backquote then leadBT rest + 1 else 0

/-- Structured values as produced by `yaml.safe_load_all`: the Python
objects a parsed document can be (scalars, lists, string-keyed
mappings; non-string keys never arise in the fragments considered). -/
inductive Yaml where
  | null
  | bool (b : Bool)
  | int (n : Int)
  | str (s : String)
  | list (xs : List Yaml)
  | map (kvs : List (String × Yaml))

/-- Python exceptions crossing the boundaries modelled here, carrying
their `str(e)` message. -/
inductive PyErr where
  | valueError (m : String)
  | fileNotFound (m : String)
  | transport (m : String)
  | persistence (m : String)

/-- The message `str(e)` of an exception. -/
def PyErr.msg : PyErr → String
  | .valueError m => m
  | .fileNotFound m => m
  | .transport m => m
  | .persistence m => m

/-- Outcome of `list(yaml.safe_load_all(content))`: either the list of
parsed documents, or a raised `yaml.YAMLError`. -/
inductive ParseOutcome where
  | docs (ds : List Yaml)
  | yamlError (m : String)

/-- Outcome of `self.model.generate_content(...)`: either the response
text, or a raised transport/quota/auth exception. -/
inductive GenOutcome where
  | text (t : String)
  | raises (e : PyErr)

namespace ICL

/-- `ICLAgent._clean_response` (icl_agent.py lines 46-62): empty input
is returned unchanged; otherwise remove the opening fence line, remove
all remaining fence markers, strip `#`-comments per line, strip the
whole text, drop blank lines, replace tabs by two spaces and re-join
with newlines. -/
def clean_response (s : String) : String :=
  if s.data = [] then "" else
    let t1 := subOpenFence s.data
    let t2 := removeTriple t1
    let t3 := stripComments t2
    let lines := splitlinesPy (stripPy t3)
    let kept := lines.filter (fun ln => !(stripPy ln).isEmpty)
    String.mk (joinNL (kept.map replaceTabs))

/-- `ICLAgent._parse_yaml_safely` (icl_agent.py lines 64-73) as a
function of the outcome of the external `yaml.safe_load_all` call: zero
documents raise `ValueError("Empty YAML content")` (which, not being a
`yaml.YAMLError`, is not caught by the handler); one document is
returned directly; several are wrapped under a `documents` key; a
`yaml.YAMLError` is converted into the error document stamped with the
current time. -/
def parse_yaml_safely (po : ParseOutcome) (now : String) : Except PyErr Yaml :=
  match po with
  | .docs [] => .error (.valueError "Empty YAML content")
  | .docs [d] => .ok d
  | .docs ds => .ok (.map [("documents", .list ds)])
  | .yamlError _ =>
    .ok (.map [("error", .str "Failed to parse YAML"), ("timestamp", .str now)])

/-- The static fallback knowledge base of `_load_knowledge`
(icl_agent.py lines 132-137). -/
def defaultKnowledge : Yaml :=
  .map [("schema", .map [("components", .list []), ("parameters", .list [])]),
        ("rules", .map [("validation", .list []), ("security", .list [])]),
        ("practices", .map [("deployment", .list []), ("configuration", .list [])]),
        ("patterns", .map [("common", .list []), ("recommended", .list [])])]

/-- The validation `isinstance(knowledge, dict) and knowledge`
(icl_agent.py line 125): a mapping with at least one key. -/
def isNonEmptyDict : Yaml → Bool
  | .map [] => false
  | .map _ => true
  | _ => false

/-- `ICLAgent._load_knowledge` (icl_agent.py lines 91-137) as a function
of the outcomes of its external calls: `docExists` is the
`os.path.exists` test, `extracted` the outcome of the PDF text
extraction, `gen` the outcome of the model call on the extracted
content, `oracle` the outcome of `yaml.safe_load_all` on the sanitized
response.  Every exception raised in the body (missing file, extraction
failure, transport failure, the `ValueError` for empty parsed content,
failed validation) is caught by the outer handler, which installs the
static default knowledge base. -/
def load_knowledge (docExists : Bool) (extracted : Except PyErr String)
    (gen : String → GenOutcome) (oracle : String → ParseOutcome)
    (now : String) : Yaml :=
  if docExists then
    match extracted with
    | .error _ => defaultKnowledge
    | .ok content =>
      match gen content with
      | .raises _ => defaultKnowledge
      | .text t =>
        match parse_yaml_safely (oracle (clean_response t)) now with
        | .error _ => defaultKnowledge
        | .ok k => if isNonEmptyDict k then k else defaultKnowledge
  else defaultKnowledge

/-- `ICLAgent.process_request` (icl_agent.py lines 139-166) as a
function of the outcome of its external calls: `gen` is the outcome of
the model call on the built prompt, `oracle` the outcome of
`yaml.safe_load_all` on the sanitized response, `save` the outcome of
`_save_yaml`.  The result carries the agent's knowledge (returned
unchanged: the method never assigns `self.knowledge`), the parsed
configuration and the saved file path; any exception raised by a step
is logged and re-raised unchanged by the outer handler. -/
def process_request (knowledge : Yaml) (gen : GenOutcome)
    (oracle : String → ParseOutcome) (now : String)
    (save : Yaml → Except PyErr String) : Except PyErr (Yaml × Yaml × String) :=
  match gen with
  | .raises e => .error e
  | .text t =>
    match parse_yaml_safely (oracle (clean_response t)) now with
    | .error e => .error e
    | .ok config =>
      match save config with
      | .error e => .error e
      | .ok filepath => .ok (knowledge, config, filepath)

/-- `ICLAgent.update_configuration` (icl_agent.py lines 168-198):
identical pipeline to `process_request`; the current configuration only
enters the prompt (absorbed into `gen`), and `self.knowledge` is never
assigned. -/
def update_configuration (knowledge : Yaml) (currentConfig : Yaml)
    (gen : GenOutcome) (oracle : String → ParseOutcome) (now : String)
    (save : Yaml → Except PyErr String) : Except PyErr (Yaml × Yaml × String) :=
  match gen with
  | .raises e => .error e
  | .text t =>
    match parse_yaml_safely (oracle (clean_response t)) now with
    | .error e => .error e
    | .ok config =>
      match save config with
      | .error e => .error e
      | .ok filepath => .ok (knowledge, config, filepath)

end ICL

namespace App

/-- `StreamlitICLAgent._clean_response` (app.py lines 108-117): the
UI-embedded copy, textually identical to the agent's. -/
def clean_response (s : String) : String :=
  if s.data = [] then "" else
    let t1 := subOpenFence s.data
    let t2 := removeTriple t1
    let t3 := stripComments t2
    let lines := splitlinesPy (stripPy t3)
    let kept := lines.filter (fun ln => !(stripPy ln).isEmpty)
    String.mk (joinNL (kept.map replaceTabs))

/-- `StreamlitICLAgent._parse_yaml_safely` (app.py lines 119-128): the
UI-embedded copy; it differs from the agent's only in where the error
is reported (`st.error` instead of `self.log`). -/
def parse_yaml_safely (po : ParseOutcome) (now : String) : Except PyErr Yaml :=
  match po with
  | .docs [] => .error (.valueError "Empty YAML content")
  | .docs [d] => .ok d
  | .docs ds => .ok (.map [("documents", .list ds)])
  | .yamlError _ =>
    .ok (.map [("error", .str "Failed to parse YAML"), ("timestamp", .str now)])

/-- `StreamlitICLAgent.process_request` (app.py lines 130-152): the
whole body runs under `except Exception as e: return {"error": str(e)}`
so every raised exception (transport failure, the `ValueError` escaping
the parse helper) is converted into an error mapping, and nothing
propagates to the caller. -/
def process_request (gen : GenOutcome) (oracle : String → ParseOutcome)
    (now : String) : Yaml :=
  match gen with
  | .raises e => .map [("error", .str e.msg)]
  | .text t =>
    match parse_yaml_safely (oracle (clean_response t)) now with
    | .error e => .map [("error", .str e.msg)]
    | .ok config => config

end App

/-- A scalar for which the modelled PyYAML fragment round-trips as a
plain (unquoted) string: nonempty, alphanumeric with a leading letter,
and not one of the YAML 1.1 boolean/null words that `safe_load` would
resolve to a non-string value. -/
def plainSafe (s : String) : Bool :=
  match s.data with
  | [] => false
  | c :: rest =>
    c.isAlpha && (c :: rest).all (fun x => x.isAlphanum) &&
    !(["y", "n", "yes", "no", "true", "false", "on", "off", "null"].contains
        (String.mk (s.data.map Char.toLower)))

/-- One `key: value` line of the block-style serialization. -/
def lineOfPair (p : String × String) : List Char :=
  p.1.data ++ ':' :: ' ' :: p.2.data

/-- Model of `yaml.dump` (insertion-ordered, block-style, as configured
by the Persister) on a flat mapping of plain scalars: one `key: value`
line per entry, terminated by a newline.  Line folding of overlong
lines and the flow-style rendering of the empty mapping are outside the
modelled fragment. -/
def dumpFlat (m : List (String × String)) : String :=
  String.mk (joinNL (m.map lineOfPair) ++ ['\n'])

/-- The structured value that the modelled flat mapping denotes. -/
def flatToYaml (m : List (String × String)) : Yaml :=
  Yaml.map (m.map (fun p => (p.1, Yaml.str p.2)))

/-- Characters before the key/value separator of a line. -/
def colonPred (c : Char) : Bool := !(c == ':')

/-- Parse one `key: value` line of the modelled fragment. -/
def parseFlatLine (l : List Char) : Option (String × String) :=
  match l.dropWhile colonPred with
  | ':' :: ' ' :: v => some (String.mk (l.takeWhile colonPred), String.mk v)
  | _ => none

/-- Parse the lines of one document of the modelled fragment. -/
def parseFlatDoc : List (List Char) → Option (List (String × String))
  | [] => some []
  | ln :: rest =>
    match parseFlatLine ln, parseFlatDoc rest with
    | some p, some ps => some (p :: ps)
    | _, _ => none

/-- A document-boundary line. -/
def dashLine : List Char := ['-', '-', '-']

/-- Split a line list into documents at `---` boundary lines. -/
def splitDocsFlat : List (List Char) → List (List (List Char))
  | [] => [[]]
  | ln :: rest =>
    match splitDocsFlat rest with
    | [] => []
    | g :: gs => if ln = dashLine then [] :: g :: gs else (ln :: g) :: gs

/-- Parse every document of the modelled fragment. -/
def parseDocsFlat : List (List (List Char)) → Option (List (List (String × String)))
  | [] => some []
  | g :: gs =>
    match parseFlatDoc g, parseDocsFlat gs with
    | some d, some ds => some (d :: ds)
    | _, _ => none

/-- Model of `yaml.safe_load_all` on the modelled fragment: empty text
yields zero documents; otherwise the text is split into lines and
documents, each parsed as a flat block mapping; anything else is a
structural parse error (`yaml.YAMLError`). -/
def safe_load_all_flat (s : String) : ParseOutcome :=
  if s.data = [] then ParseOutcome.docs []
  else
    match parseDocsFlat (splitDocsFlat (splitlinesPy s.data)) with
    | some ds => ParseOutcome.docs (ds.map flatToYaml)
    | none => ParseOutcome.yamlError "could not parse as a block mapping"

/-- Key membership in a mapping (for stating which top-level sections a
knowledge base has). -/
def Yaml.hasKey (y : Yaml) (k : String) : Bool :=
  match y with
  | .map kvs => kvs.any (fun p => p.1 == k)
  | _ => false

/-! Basic equations for the fence-detection measure. -/

theorem containsTriple_nil : containsTriple [] = false := rfl

theorem containsTriple_one (c : Char) : containsTriple [c] = false := rfl

theorem containsTriple_two (c a : Char) : containsTriple [c, a] = false := rfl

theorem containsTriple_three (c1 c2 c3 : Char) (r : List Char) :
    containsTriple (c1 :: c2 :: c3 :: r)
      = ((decide (c1 = backquote) && decide (c2 = backquote) && decide (c3 = backquote))
          || containsTriple (c2 :: c3 :: r)) := rfl

theorem leadBT_nil : leadBT [] = 0 := rfl

theorem leadBT_cons (c : Char) (l : List Char) :
    leadBT (c :: l) = if c = backquote then leadBT l + 1 else 0 := rfl

theorem leadBT_two {a b : Char} {r : List Char} :
    2 ≤ leadBT (a :: b :: r) ↔ (a = backquote ∧ b = backquote) := by
  by_cases ha : a = backquote <;> by_cases hb : b = backquote <;>
    simp [leadBT_cons, ha, hb] <;> omega

theorem containsTriple_cons (c : Char) (l : List Char) :
    containsTriple (c :: l)
      = ((decide (c = backquote) && decide (2 ≤ leadBT l)) || containsTriple l) := by
  match l with
  | [] => simp [containsTriple_one, containsTriple_nil, leadBT_nil]
  | [a] =>
    by_cases ha : a = backquote <;>
      simp [containsTriple_two, containsTriple_one, leadBT_cons, leadBT_nil, ha]
  | a :: b :: r =>
    have h2 : decide (2 ≤ leadBT (a :: b :: r))
        = (decide (a = backquote) && decide (b = backquote)) := by
      rw [decide_eq_decide.mpr leadBT_two, Bool.decide_and]
    rw [containsTriple_three, h2, Bool.and_assoc]

theorem leadBT_take_two {l : List Char} :
    2 ≤ leadBT l ↔ l.take 2 = [backquote, backquote] := by
  match l with
  | [] => simp [leadBT_nil]
  | [a] =>
    by_cases ha : a = backquote <;> simp [leadBT_cons, leadBT_nil, ha]
  | a :: b :: r =>
    rw [leadBT_two]
    constructor
    · rintro ⟨rfl, rfl⟩; rfl
    · intro h
      simp [List.take] at h
      exact ⟨h.1, h.2⟩

theorem leadBT_append_sep {A B : List Char} {d : Char} (hd : d ≠ backquote) :
    leadBT (A ++ d :: B) = leadBT A := by
  induction A with
  | nil => simp [leadBT_cons, leadBT_nil, hd]
  | cons c A ih =>
    by_cases hc : c = backquote <;> simp [leadBT_cons, hc, ih]

theorem leadBT_le_append (A B : List Char) : leadBT A ≤ leadBT (A ++ B) := by
  induction A with
  | nil => simp [leadBT_nil]
  | cons c A ih =>
    by_cases hc : c = backquote <;> simp [leadBT_cons, hc] <;> omega

theorem containsTriple_append_sep {A B : List Char} {d : Char} (hd : d ≠ backquote)
    (hA : containsTriple A = false) (hB : containsTriple B = false) :
    containsTriple (A ++ d :: B) = false := by
  induction A with
  | nil =>
    rw [List.nil_append, containsTriple_cons]
    simp [hd, hB]
  | cons c A ih =>
    rw [containsTriple_cons] at hA
    simp only [Bool.or_eq_false_iff] at hA
    obtain ⟨hw, hA2⟩ := hA
    rw [List.cons_append, containsTriple_cons, leadBT_append_sep hd]
    simp [hw, ih hA2]

theorem containsTriple_append_left {A B : List Char}
    (h : containsTriple (A ++ B) = false) : containsTriple A = false := by
  induction A with
  | nil => exact containsTriple_nil
  | cons c A ih =>
    rw [List.cons_append, containsTriple_cons] at h
    simp only [Bool.or_eq_false_iff] at h
    obtain ⟨hw, h2⟩ := h
    rw [containsTriple_cons]
    simp only [Bool.or_eq_false_iff]
    refine ⟨?_, ih h2⟩
    by_cases hc : c = backquote
    · by_cases h2le : 2 ≤ leadBT A
      · exfalso
        have : 2 ≤ leadBT (A ++ B) := le_trans h2le (leadBT_le_append A B)
        simp [hc, this] at hw
      · simp [h2le]
    · simp [hc]

theorem containsTriple_append_right {A B : List Char}
    (h : containsTriple (A ++ B) = false) : containsTriple B = false := by
  induction A with
  | nil => simpa using h
  | cons c A ih =>
    rw [List.cons_append, containsTriple_cons] at h
    simp only [Bool.or_eq_false_iff] at h
    exact ih h.2

theorem containsTriple_dropWhile {p : Char → Bool} {l : List Char}
    (h : containsTriple l = false) : containsTriple (l.dropWhile p) = false := by
  induction l with
  | nil => simpa using h
  | cons c l ih =>
    rw [containsTriple_cons] at h
    simp only [Bool.or_eq_false_iff] at h
    rw [List.dropWhile_cons]
    split
    · exact ih h.2
    · rw [containsTriple_cons]
      simp [h.1, h.2]

theorem containsTriple_takeWhile {p : Char → Bool} {l : List Char}
    (h : containsTriple l = false) : containsTriple (l.takeWhile p) = false := by
  have hsplit : l.takeWhile p ++ l.dropWhile p = l := List.takeWhile_append_dropWhile p l
  rw [← hsplit] at h
  exact containsTriple_append_left h

/-! Fence removal leaves no residual fence syntax. -/

theorem leadBT_removeTriple (l : List Char) :
    leadBT (removeTriple l) = leadBT l % 3 := by
  induction l using removeTriple.induct with
  | case1 => simp [removeTriple, leadBT_nil]
  | case2 c rest h ih =>
    obtain ⟨rfl, htake⟩ := h
    have hrest : rest = backquote :: backquote :: rest.drop 2 := by
      have h4 := List.take_append_drop 2 rest
      rw [htake] at h4
      exact h4.symm
    rw [removeTriple]
    simp only [htake, and_self, if_pos, ite_true]
    rw [ih]
    conv_rhs => rw [hrest]
    simp [leadBT_cons]
    omega
  | case3 c rest h ih =>
    rw [removeTriple]
    rw [if_neg h]
    by_cases hc : c = backquote
    · have htake : rest.take 2 ≠ [backquote, backquote] := by
        intro hco; exact h ⟨hc, hco⟩
      have hlt : leadBT rest ≤ 1 := by
        by_contra hge
        exact htake (leadBT_take_two.mp (by omega))
      simp [leadBT_cons, hc, ih]
      omega
    · simp [leadBT_cons, hc]

theorem containsTriple_removeTriple (l : List Char) :
    containsTriple (removeTriple l) = false := by
  induction l using removeTriple.induct with
  | case1 => simp [removeTriple, containsTriple_nil]
  | case2 c rest h ih =>
    rw [removeTriple, if_pos h]
    exact ih
  | case3 c rest h ih =>
    rw [removeTriple, if_neg h, containsTriple_cons]
    simp only [Bool.or_eq_false_iff]
    refine ⟨?_, ih⟩
    by_cases hc : c = backquote
    · have htake : rest.take 2 ≠ [backquote, backquote] := by
        intro hco; exact h ⟨hc, hco⟩
      have hlt : leadBT rest ≤ 1 := by
        by_contra hge
        exact htake (leadBT_take_two.mp (by omega))
      have h3 : leadBT (removeTriple rest) ≤ 1 := by
        rw [leadBT_removeTriple]; omega
      simp
      omega
    · simp [hc]

/-! Comment stripping, stripping, line splitting, tab replacement and
joining cannot create fence syntax. -/

theorem stripComments_dropWhile_shape (l : List Char) :
    l.dropWhile (fun x => !(x == '\n')) = [] ∨
      ∃ r, l.dropWhile (fun x => !(x == '\n')) = '\n' :: r := by
  induction l with
  | nil => left; rfl
  | cons c l ih =>
    rw [List.dropWhile_cons]
    split
    · exact ih
    · rename_i hneg
      simp at hneg
      right; exact ⟨l, by rw [hneg]⟩

theorem leadBT_stripComments (l : List Char) :
    leadBT (stripComments l) ≤ leadBT l := by
  induction l using stripComments.induct with
  | case1 => simp [stripComments]
  | case2 rest ih =>
    rw [stripComments]
    simp only [if_pos rfl]
    rcases stripComments_dropWhile_shape rest with hsh | ⟨r, hsh⟩
    · rw [hsh]; simp [stripComments, leadBT_nil]
    · rw [hsh]
      rw [stripComments]
      have h5 : ¬ ('\n' : Char) = '#' := by decide
      have h7 : ¬ ('\n' : Char) = backquote := by decide
      rw [if_neg h5]
      simp [leadBT_cons, h7]
  | case3 c rest hc ih =>
    rw [stripComments, if_neg hc]
    by_cases hb : c = backquote
    · simp [leadBT_cons, hb]; omega
    · simp [leadBT_cons, hb]

theorem containsTriple_stripComments {l : List Char}
    (h : containsTriple l = false) : containsTriple (stripComments l) = false := by
  induction l using stripComments.induct with
  | case1 =>
    rw [stripComments]
    exact containsTriple_nil
  | case2 rest ih =>
    rw [containsTriple_cons] at h
    simp only [Bool.or_eq_false_iff] at h
    rw [stripComments]
    simp only [if_pos rfl]
    exact ih (containsTriple_dropWhile h.2)
  | case3 c rest hc ih =>
    rw [containsTriple_cons] at h
    simp only [Bool.or_eq_false_iff] at h
    rw [stripComments, if_neg hc, containsTriple_cons]
    simp only [Bool.or_eq_false_iff]
    refine ⟨?_, ih h.2⟩
    by_cases hb : c = backquote
    · have h1 : leadBT rest ≤ 1 := by
        have := h.1
        by_contra hge
        simp [hb] at this
        omega
      have h2 : leadBT (stripComments rest) ≤ 1 :=
        le_trans (leadBT_stripComments rest) h1
      simp
      omega
    · simp [hb]

theorem containsTriple_stripPy {l : List Char}
    (h : containsTriple l = false) : containsTriple (stripPy l) = false := by
  unfold stripPy
  set X := l.dropWhile isPySpace with hX
  have hXct : containsTriple X = false := containsTriple_dropWhile h
  have hdec : X = (X.reverse.dropWhile isPySpace).reverse ++
      (X.reverse.takeWhile isPySpace).reverse := by
    conv_lhs => rw [← List.reverse_reverse X,
      ← List.takeWhile_append_dropWhile isPySpace X.reverse]
    rw [List.reverse_append]
  rw [hdec] at hXct
  exact containsTriple_append_left hXct

theorem containsTriple_splitlines {l : List Char}
    (h : containsTriple l = false) :
    ∀ ln ∈ splitlinesPy l, containsTriple ln = false := by
  induction l using splitlinesPy.induct with
  | case1 h0 =>
    intro ln hln
    simp [splitlinesPy] at hln
  | case2 x hdw hx =>
    intro ln hln
    rw [splitlinesPy] at hln
    rw [hdw] at hln
    simp [hx] at hln
    rw [hln]
    exact containsTriple_takeWhile h
  | case3 x r hdw ih =>
    intro ln hln
    rw [splitlinesPy] at hln
    rw [hdw] at hln
    simp at hln
    have hsuf : containsTriple (x.dropWhile nlPred) = false := containsTriple_dropWhile h
    rw [hdw, containsTriple_cons] at hsuf
    simp only [Bool.or_eq_false_iff] at hsuf
    have hr : containsTriple r = false := by
      have := hsuf.2
      rw [containsTriple_cons] at this
      simp only [Bool.or_eq_false_iff] at this
      exact this.2
    rcases hln with hln | hln
    · rw [hln]; exact containsTriple_takeWhile h
    · exact ih hr ln hln
  | case4 x hd r hne hdw ih =>
    intro ln hln
    have hsuf : containsTriple (x.dropWhile nlPred) = false := containsTriple_dropWhile h
    rw [hdw, containsTriple_cons] at hsuf
    simp only [Bool.or_eq_false_iff] at hsuf
    rw [splitlinesPy] at hln
    rw [hdw] at hln
    split at hln
    · rename_i heq
      exact absurd heq (by simp)
    · rename_i r2 heq
      injection heq with h1 h2
      exact (hne r2 h1 h2).elim
    · rename_i c r3 hprev heq
      injection heq with h1 h2
      subst h2
      simp at hln
      rcases hln with hln | hln
      · rw [hln]; exact containsTriple_takeWhile h
      · exact ih hsuf.2 ln hln

theorem leadBT_replaceTabs (l : List Char) : leadBT (replaceTabs l) = leadBT l := by
  induction l with
  | nil => rfl
  | cons c l ih =>
    show leadBT (if c = '\t' then ' ' :: ' ' :: replaceTabs l else c :: replaceTabs l) = _
    by_cases ht : c = '\t'
    · have h1 : ¬ (' ' : Char) = backquote := by decide
      have h2 : ¬ ('\t' : Char) = backquote := by decide
      simp [ht, leadBT_cons, h1, h2]
    · rw [if_neg ht]
      by_cases hb : c = backquote <;> simp [leadBT_cons, hb, ih]

theorem containsTriple_replaceTabs {l : List Char}
    (h : containsTriple l = false) : containsTriple (replaceTabs l) = false := by
  induction l with
  | nil => simpa using h
  | cons c l ih =>
    rw [containsTriple_cons] at h
    simp only [Bool.or_eq_false_iff] at h
    show containsTriple (if c = '\t' then ' ' :: ' ' :: replaceTabs l else c :: replaceTabs l)
      = false
    by_cases ht : c = '\t'
    · have h1 : ¬ (' ' : Char) = backquote := by decide
      rw [if_pos ht, containsTriple_cons, containsTriple_cons]
      simp [h1, ih h.2]
    · rw [if_neg ht, containsTriple_cons]
      simp only [Bool.or_eq_false_iff]
      refine ⟨?_, ih h.2⟩
      rw [leadBT_replaceTabs]
      exact h.1

theorem joinNL_cons_ne (l : List Char) {ls : List (List Char)} (h : ls ≠ []) :
    joinNL (l :: ls) = l ++ '\n' :: joinNL ls := by
  match ls with
  | [] => exact absurd rfl h
  | a :: ls2 => rfl

theorem containsTriple_joinNL {ls : List (List Char)}
    (h : ∀ l ∈ ls, containsTriple l = false) : containsTriple (joinNL ls) = false := by
  induction ls with
  | nil => rfl
  | cons l ls ih =>
    match ls with
    | [] => exact h l (by simp)
    | a :: ls2 =>
      rw [joinNL_cons_ne l (by simp)]
      have hnl : ('\n' : Char) ≠ backquote := by decide
      refine containsTriple_append_sep hnl (h l (by simp)) (ih ?_)
      intro x hx
      exact h x (by simp [hx])

/-! Identity of the sanitizer stages on texts without their trigger
characters. -/

theorem subOpenFence_id {l : List Char} (h : ∀ c ∈ l, c ≠ backquote) :
    subOpenFence l = l := by
  induction l using subOpenFence.induct with
  | case1 => rw [subOpenFence]
  | case2 c rest hcond rem hm ih =>
    exact absurd hcond.1 (h c (by simp))
  | case3 c rest hcond hnone ih =>
    exact absurd hcond.1 (h c (by simp))
  | case4 c rest hcond ih =>
    rw [subOpenFence, if_neg hcond]
    rw [ih (fun x hx => h x (by simp [hx]))]

theorem removeTriple_id {l : List Char} (h : ∀ c ∈ l, c ≠ backquote) :
    removeTriple l = l := by
  induction l using removeTriple.induct with
  | case1 => rw [removeTriple]
  | case2 c rest hcond ih =>
    exact absurd hcond.1 (h c (by simp))
  | case3 c rest hcond ih =>
    rw [removeTriple, if_neg hcond]
    rw [ih (fun x hx => h x (by simp [hx]))]

theorem stripComments_id {l : List Char} (h : ∀ c ∈ l, c ≠ '#') :
    stripComments l = l := by
  induction l using stripComments.induct with
  | case1 => rw [stripComments]
  | case2 rest ih =>
    exact absurd rfl (h '#' (by simp))
  | case3 c rest hc ih =>
    rw [stripComments, if_neg hc]
    rw [ih (fun x hx => h x (by simp [hx]))]

theorem replaceTabs_id {l : List Char} (h : ∀ c ∈ l, c ≠ '\t') :
    replaceTabs l = l := by
  induction l with
  | nil => rfl
  | cons c l ih =>
    show (if c = '\t' then ' ' :: ' ' :: replaceTabs l else c :: replaceTabs l) = c :: l
    rw [if_neg (h c (by simp))]
    rw [ih (fun x hx => h x (by simp [hx]))]

/-! Take/drop across appends, line-splitting of joined lines, and
stripping of texts with non-space edges. -/

theorem takeWhile_append_stop {p : Char → Bool} {A B : List Char} {b : Char}
    (hA : ∀ a ∈ A, p a = true) (hb : p b = false) :
    (A ++ b :: B).takeWhile p = A := by
  induction A with
  | nil => simp [List.takeWhile_cons, hb]
  | cons a A ih =>
    rw [List.cons_append, List.takeWhile_cons, if_pos (hA a (by simp))]
    rw [ih (fun x hx => hA x (by simp [hx]))]

theorem dropWhile_append_stop {p : Char → Bool} {A B : List Char} {b : Char}
    (hA : ∀ a ∈ A, p a = true) (hb : p b = false) :
    (A ++ b :: B).dropWhile p = b :: B := by
  induction A with
  | nil => simp [List.dropWhile_cons, hb]
  | cons a A ih =>
    rw [List.cons_append, List.dropWhile_cons, if_pos (hA a (by simp))]
    exact ih (fun x hx => hA x (by simp [hx]))

theorem splitlinesPy_all {l : List Char} (hl : l ≠ []) (h : ∀ c ∈ l, nlPred c = true) :
    splitlinesPy l = [l] := by
  rw [splitlinesPy]
  rw [List.dropWhile_eq_nil_iff.mpr h]
  simp [hl, List.takeWhile_eq_self_iff.mpr h]

theorem splitlinesPy_nl {l r : List Char} (h : l.dropWhile nlPred = '\n' :: r) :
    splitlinesPy l = l.takeWhile nlPred :: splitlinesPy r := by
  rw [splitlinesPy]
  rw [h]
  split
  · rename_i heq
    exact absurd heq (by simp)
  · rename_i r2 heq
    injection heq with h1 h2
    exact absurd h1 (by decide)
  · rename_i hd r2 hprev heq
    injection heq with h1 h2
    rw [h2]

theorem joinNL_snoc {ls : List (List Char)} (l : List Char) (h : ls ≠ []) :
    joinNL (ls ++ [l]) = joinNL ls ++ '\n' :: l := by
  induction ls with
  | nil => exact absurd rfl h
  | cons a ls ih =>
    rcases ls with _ | ⟨b, ls2⟩
    · rfl
    · rw [List.cons_append, joinNL_cons_ne a (by simp), joinNL_cons_ne a (by simp),
        ih (by simp)]
      simp

theorem mem_joinNL {c : Char} {ls : List (List Char)} (h : c ∈ joinNL ls) :
    c = '\n' ∨ ∃ l ∈ ls, c ∈ l := by
  induction ls with
  | nil => simp [joinNL] at h
  | cons l ls ih =>
    rcases ls with _ | ⟨a, ls2⟩
    · right; exact ⟨l, by simp, h⟩
    · rw [joinNL_cons_ne l (by simp)] at h
      rw [List.mem_append, List.mem_cons] at h
      rcases h with h | h | h
      · right; exact ⟨l, by simp, h⟩
      · left; exact h
      · rcases ih h with h2 | ⟨l2, hl2, hc2⟩
        · left; exact h2
        · right; exact ⟨l2, by simp [hl2], hc2⟩

theorem joinNL_cons_head (c : Char) (l1 : List Char) (ls : List (List Char)) :
    ∃ X, joinNL ((c :: l1) :: ls) = c :: X := by
  rcases ls with _ | ⟨a, ls2⟩
  · exact ⟨l1, rfl⟩
  · exact ⟨l1 ++ '\n' :: joinNL (a :: ls2), rfl⟩

theorem splitlinesPy_joinNL {ls : List (List Char)} (hne : ls ≠ [])
    (hnn : ∀ l ∈ ls, l ≠ [])
    (hnb : ∀ l ∈ ls, ∀ c ∈ l, isBreakChar c = false) :
    splitlinesPy (joinNL ls) = ls := by
  induction ls with
  | nil => exact absurd rfl hne
  | cons l ls ih =>
    rcases ls with _ | ⟨a, ls2⟩
    · show splitlinesPy l = [l]
      exact splitlinesPy_all (hnn l (by simp))
        (fun c hc => by simp [nlPred, hnb l (by simp) c hc])
    · rw [joinNL_cons_ne l (by simp)]
      have hAall : ∀ c ∈ l, nlPred c = true :=
        fun c hc => by simp [nlPred, hnb l (by simp) c hc]
      have hnlb : nlPred '\n' = false := by decide
      have hdrop : (l ++ '\n' :: joinNL (a :: ls2)).dropWhile nlPred
          = '\n' :: joinNL (a :: ls2) := dropWhile_append_stop hAall hnlb
      rw [splitlinesPy_nl hdrop, takeWhile_append_stop hAall hnlb]
      rw [ih (by simp) (fun x hx => hnn x (by simp [hx]))
        (fun x hx => hnb x (by simp [hx]))]

theorem stripPy_sandwich {c d : Char} {X B : List Char}
    (hA : c :: X = B ++ [d])
    (hc : isPySpace c = false) (hd : isPySpace d = false) :
    stripPy ((c :: X) ++ ['\n']) = c :: X := by
  unfold stripPy
  have h1 : ((c :: X) ++ ['\n']).dropWhile isPySpace = (c :: X) ++ ['\n'] := by
    rw [List.cons_append, List.dropWhile_cons, if_neg (by simp [hc])]
  rw [h1, hA]
  have h2 : ((B ++ [d]) ++ ['\n']).reverse = '\n' :: d :: B.reverse := by simp
  rw [h2]
  rw [List.dropWhile_cons, if_pos (by decide)]
  rw [List.dropWhile_cons, if_neg (by simp [hd])]
  rw [show (d :: B.reverse).reverse = B ++ [d] from by simp, ← hA]

/-! Character classes of the modelled flat serialization. -/

theorem alnum_facts {c : Char} (h : c.isAlphanum = true) :
    c ≠ backquote ∧ c ≠ '#' ∧ c ≠ '\t' ∧ c ≠ ':' ∧
      isPySpace c = false ∧ isBreakChar c = false := by
  refine ⟨?_, ?_, ?_, ?_, ?_, ?_⟩
  · rintro rfl; exact absurd h (by decide)
  · rintro rfl; exact absurd h (by decide)
  · rintro rfl; exact absurd h (by decide)
  · rintro rfl; exact absurd h (by decide)
  · by_contra hs
    simp only [Bool.not_eq_false] at hs
    simp only [isPySpace, Bool.or_eq_true, beq_iff_eq] at hs
    rcases hs with ((((hs | hs) | hs) | hs) | hs) | hs <;> subst hs <;>
      exact absurd h (by decide)
  · by_contra hs
    simp only [Bool.not_eq_false] at hs
    simp only [isBreakChar, Bool.or_eq_true, beq_iff_eq] at hs
    rcases hs with ((((((((hs | hs) | hs) | hs) | hs) | hs) | hs) | hs) | hs) | hs <;>
      subst hs <;> exact absurd h (by decide)

theorem alpha_ne_dash {c : Char} (h : c.isAlpha = true) : c ≠ '-' := by
  rintro rfl; exact absurd h (by decide)

theorem alpha_alnum {c : Char} (h : c.isAlpha = true) : c.isAlphanum = true := by
  simp [Char.isAlphanum, h]

/-! Structure of the modelled flat serialization. -/

theorem joinNL_single (l : List Char) : joinNL [l] = l := rfl

theorem plainSafe_shape {s : String} (h : plainSafe s = true) :
    ∃ c rest, s.data = c :: rest ∧ c.isAlpha = true ∧
      (∀ x ∈ s.data, x.isAlphanum = true) := by
  unfold plainSafe at h
  rcases hs : s.data with _ | ⟨c, rest⟩ <;> rw [hs] at h
  · simp at h
  · rw [Bool.and_eq_true, Bool.and_eq_true] at h
    obtain ⟨⟨h1, h2⟩, h3⟩ := h
    rw [List.all_eq_true] at h2
    exact ⟨c, rest, rfl, h1, h2⟩

theorem lineOfPair_chars {p : String × String} (hk : plainSafe p.1 = true)
    (hv : plainSafe p.2 = true) :
    ∀ c ∈ lineOfPair p, c.isAlphanum = true ∨ c = ':' ∨ c = ' ' := by
  obtain ⟨ck, rk, hks, hka, hkall⟩ := plainSafe_shape hk
  obtain ⟨cv, rv, hvs, hva, hvall⟩ := plainSafe_shape hv
  intro c hc
  unfold lineOfPair at hc
  rw [List.mem_append] at hc
  rcases hc with hc | hc
  · exact Or.inl (hkall c hc)
  · rw [List.mem_cons] at hc
    rcases hc with rfl | hc
    · exact Or.inr (Or.inl rfl)
    · rw [List.mem_cons] at hc
      rcases hc with rfl | hc
      · exact Or.inr (Or.inr rfl)
      · exact Or.inl (hvall c hc)

theorem lineOfPair_ne_nil {p : String × String} (hk : plainSafe p.1 = true) :
    lineOfPair p ≠ [] := by
  obtain ⟨ck, rk, hks, _, _⟩ := plainSafe_shape hk
  unfold lineOfPair
  rw [hks]
  simp

theorem lineOfPair_ne_dash {p : String × String} (hk : plainSafe p.1 = true) :
    lineOfPair p ≠ dashLine := by
  obtain ⟨ck, rk, hks, hka, _⟩ := plainSafe_shape hk
  unfold lineOfPair
  rw [hks, List.cons_append]
  intro hc
  exact alpha_ne_dash hka (List.cons.inj hc).1

theorem lineOfPair_no_break {p : String × String} (hk : plainSafe p.1 = true)
    (hv : plainSafe p.2 = true) :
    ∀ c ∈ lineOfPair p, isBreakChar c = false := by
  intro c hc
  rcases lineOfPair_chars hk hv c hc with h | h | h
  · exact (alnum_facts h).2.2.2.2.2
  · subst h; decide
  · subst h; decide

theorem lineOfPair_no_tab {p : String × String} (hk : plainSafe p.1 = true)
    (hv : plainSafe p.2 = true) :
    ∀ c ∈ lineOfPair p, c ≠ '\t' := by
  intro c hc
  rcases lineOfPair_chars hk hv c hc with h | h | h
  · exact (alnum_facts h).2.2.1
  · subst h; decide
  · subst h; decide

theorem dump_chars {m : List (String × String)}
    (hsafe : ∀ p ∈ m, plainSafe p.1 = true ∧ plainSafe p.2 = true) :
    ∀ c ∈ joinNL (m.map lineOfPair) ++ ['\n'], c ≠ backquote ∧ c ≠ '#' := by
  intro c hc
  rw [List.mem_append] at hc
  rcases hc with hc | hc
  · rcases mem_joinNL hc with rfl | ⟨l, hl, hcl⟩
    · exact ⟨by decide, by decide⟩
    · rw [List.mem_map] at hl
      obtain ⟨p, hp, rfl⟩ := hl
      rcases lineOfPair_chars (hsafe p hp).1 (hsafe p hp).2 c hcl with h | h | h
      · exact ⟨(alnum_facts h).1, (alnum_facts h).2.1⟩
      · subst h; exact ⟨by decide, by decide⟩
      · subst h; exact ⟨by decide, by decide⟩
  · rw [List.mem_singleton] at hc
    subst hc
    exact ⟨by decide, by decide⟩

theorem dump_body_concat {m : List (String × String)} (hm : m ≠ [])
    (hsafe : ∀ p ∈ m, plainSafe p.1 = true ∧ plainSafe p.2 = true) :
    ∃ B d, joinNL (m.map lineOfPair) = B ++ [d] ∧ d.isAlphanum = true := by
  rcases List.eq_nil_or_concat m with rfl | ⟨m3, pl, hmc⟩
  · exact absurd rfl hm
  · rw [List.concat_eq_append] at hmc
    subst hmc
    have hvp := (hsafe pl (by simp)).2
    obtain ⟨cv, rv, hvs, hva, hvall⟩ := plainSafe_shape hvp
    rcases List.eq_nil_or_concat pl.2.data with hnil | ⟨v2, dv, hvd⟩
    · rw [hnil] at hvs; cases hvs
    · rw [List.concat_eq_append] at hvd
      have hdv : dv.isAlphanum = true := hvall dv (by rw [hvd]; simp)
      have hline : lineOfPair pl = (pl.1.data ++ ':' :: ' ' :: v2) ++ [dv] := by
        unfold lineOfPair
        rw [hvd]
        simp
      rcases m3 with _ | ⟨q, m4⟩
      · refine ⟨pl.1.data ++ ':' :: ' ' :: v2, dv, ?_, hdv⟩
        rw [List.nil_append, List.map_singleton, joinNL_single, hline]
      · have hmap : ((q :: m4) ++ [pl]).map lineOfPair
            = ((q :: m4).map lineOfPair) ++ [lineOfPair pl] := by simp
        rw [hmap, joinNL_snoc _ (by simp), hline]
        refine ⟨joinNL ((q :: m4).map lineOfPair) ++
          '\n' :: (pl.1.data ++ ':' :: ' ' :: v2), dv, ?_, hdv⟩
        simp

theorem stripPy_ne_nil {l : List Char} {c : Char} (hc : c ∈ l)
    (hs : isPySpace c = false) : stripPy l ≠ [] := by
  unfold stripPy
  intro hcontra
  rw [List.reverse_eq_nil_iff, List.dropWhile_eq_nil_iff] at hcontra
  have hc1 : c ∈ l.dropWhile isPySpace := by
    have hsplit := List.takeWhile_append_dropWhile isPySpace l
    rw [← hsplit, List.mem_append] at hc
    rcases hc with hc | hc
    · exact absurd (List.mem_takeWhile_imp hc) (by simp [hs])
    · exact hc
  have := hcontra c (List.mem_reverse.mpr hc1)
  rw [this] at hs
  cases hs

/-! Sanitizing the flat serialization only removes its trailing
newline. -/

theorem clean_dumpFlat {m : List (String × String)} (hm : m ≠ [])
    (hsafe : ∀ p ∈ m, plainSafe p.1 = true ∧ plainSafe p.2 = true) :
    (ICL.clean_response (dumpFlat m)).data = joinNL (m.map lineOfPair) := by
  have hdata : (dumpFlat m).data = joinNL (m.map lineOfPair) ++ ['\n'] := rfl
  have hchars := dump_chars hsafe
  rcases m with _ | ⟨p0, m2⟩
  · exact absurd rfl hm
  · obtain ⟨ck, rk, hks, hka, hkall⟩ := plainSafe_shape (hsafe p0 (by simp)).1
    have hline0 : lineOfPair p0 = ck :: (rk ++ ':' :: ' ' :: p0.2.data) := by
      unfold lineOfPair
      rw [hks]
      rfl
    have hmapc : (p0 :: m2).map lineOfPair
        = (ck :: (rk ++ ':' :: ' ' :: p0.2.data)) :: m2.map lineOfPair := by
      rw [List.map_cons, hline0]
    obtain ⟨X, hAX⟩ := joinNL_cons_head ck (rk ++ ':' :: ' ' :: p0.2.data)
      (m2.map lineOfPair)
    have hA : joinNL ((p0 :: m2).map lineOfPair) = ck :: X := by rw [hmapc, hAX]
    obtain ⟨B, d, hBd, hdal⟩ := dump_body_concat hm hsafe
    have hckal : ck.isAlphanum = true := alpha_alnum hka
    have hcks : isPySpace ck = false := (alnum_facts hckal).2.2.2.2.1
    have hds : isPySpace d = false := (alnum_facts hdal).2.2.2.2.1
    unfold ICL.clean_response
    rw [if_neg (by rw [hdata, hA]; simp)]
    have h1 : subOpenFence (joinNL ((p0 :: m2).map lineOfPair) ++ ['\n'])
        = joinNL ((p0 :: m2).map lineOfPair) ++ ['\n'] :=
      subOpenFence_id (fun c hc => (hchars c hc).1)
    have h2 : removeTriple (joinNL ((p0 :: m2).map lineOfPair) ++ ['\n'])
        = joinNL ((p0 :: m2).map lineOfPair) ++ ['\n'] :=
      removeTriple_id (fun c hc => (hchars c hc).1)
    have h3 : stripComments (joinNL ((p0 :: m2).map lineOfPair) ++ ['\n'])
        = joinNL ((p0 :: m2).map lineOfPair) ++ ['\n'] :=
      stripComments_id (fun c hc => (hchars c hc).2)
    have h4 : stripPy (joinNL ((p0 :: m2).map lineOfPair) ++ ['\n'])
        = joinNL ((p0 :: m2).map lineOfPair) := by
      rw [hA]
      exact stripPy_sandwich (by rw [← hA, hBd]) hcks hds
    have h5 : splitlinesPy (joinNL ((p0 :: m2).map lineOfPair))
        = (p0 :: m2).map lineOfPair := by
      refine splitlinesPy_joinNL (by simp) ?_ ?_
      · intro l hl
        rw [List.mem_map] at hl
        obtain ⟨p, hp, rfl⟩ := hl
        exact lineOfPair_ne_nil (hsafe p hp).1
      · intro l hl
        rw [List.mem_map] at hl
        obtain ⟨p, hp, rfl⟩ := hl
        exact lineOfPair_no_break (hsafe p hp).1 (hsafe p hp).2
    have h6 : ((p0 :: m2).map lineOfPair).filter (fun ln => !(stripPy ln).isEmpty)
        = (p0 :: m2).map lineOfPair := by
      rw [List.filter_eq_self]
      intro ln hln
      rw [List.mem_map] at hln
      obtain ⟨p, hp, rfl⟩ := hln
      obtain ⟨cq, rq, hqs, hqa, hqall⟩ := plainSafe_shape (hsafe p hp).1
      have hmem : cq ∈ lineOfPair p := by
        unfold lineOfPair
        rw [hqs]
        simp
      have hq : isPySpace cq = false := (alnum_facts (alpha_alnum hqa)).2.2.2.2.1
      have := stripPy_ne_nil hmem hq
      simp only [Bool.not_eq_true']
      rw [← Bool.not_eq_true, List.isEmpty_iff]
      exact this
    have h7 : ((p0 :: m2).map lineOfPair).map replaceTabs = (p0 :: m2).map lineOfPair := by
      have harg : ∀ ln ∈ (p0 :: m2).map lineOfPair, replaceTabs ln = id ln := by
        intro ln hln
        rw [List.mem_map] at hln
        obtain ⟨p, hp, rfl⟩ := hln
        exact replaceTabs_id (lineOfPair_no_tab (hsafe p hp).1 (hsafe p hp).2)
      exact (List.map_congr_left harg).trans (List.map_id _)
    simp only [hdata, h1, h2, h3, h4, h5, h6, h7]

/-! Parsing the sanitized flat serialization recovers the mapping. -/

theorem parseFlatLine_lineOfPair {p : String × String} (hk : plainSafe p.1 = true) :
    parseFlatLine (lineOfPair p) = some p := by
  obtain ⟨k, v⟩ := p
  obtain ⟨kd⟩ := k
  obtain ⟨vd⟩ := v
  obtain ⟨ck, rk, hks, hka, hkall⟩ := plainSafe_shape hk
  have hkcolon : ∀ a ∈ kd, colonPred a = true := by
    intro a ha
    have h2 := (alnum_facts (hkall a ha)).2.2.2.1
    simp [colonPred, h2]
  have hstop : colonPred ':' = false := by decide
  unfold parseFlatLine lineOfPair
  rw [show (⟨kd⟩ : String).data = kd from rfl, show (⟨vd⟩ : String).data = vd from rfl]
  rw [dropWhile_append_stop hkcolon hstop]
  rw [takeWhile_append_stop hkcolon hstop]
  split
  · rename_i v heq
    injection heq with h1 h2
    injection h2 with h3 h4
    rw [h4]
  · rename_i hprev
    exact (hprev vd rfl).elim

theorem parseFlatDoc_map {m : List (String × String)}
    (hsafe : ∀ p ∈ m, plainSafe p.1 = true ∧ plainSafe p.2 = true) :
    parseFlatDoc (m.map lineOfPair) = some m := by
  induction m with
  | nil => rfl
  | cons p m ih =>
    show parseFlatDoc (lineOfPair p :: m.map lineOfPair) = some (p :: m)
    unfold parseFlatDoc
    rw [parseFlatLine_lineOfPair (hsafe p (by simp)).1]
    rw [ih (fun q hq => hsafe q (by simp [hq]))]

theorem splitDocsFlat_no_dash {ls : List (List Char)} (h : ∀ l ∈ ls, l ≠ dashLine) :
    splitDocsFlat ls = [ls] := by
  induction ls with
  | nil => rfl
  | cons l ls ih =>
    unfold splitDocsFlat
    rw [ih (fun x hx => h x (by simp [hx]))]
    have hne := h l (by simp)
    simp [hne]

theorem safe_load_clean_dump {m : List (String × String)} (hm : m ≠ [])
    (hsafe : ∀ p ∈ m, plainSafe p.1 = true ∧ plainSafe p.2 = true) :
    safe_load_all_flat (ICL.clean_response (dumpFlat m))
      = ParseOutcome.docs [flatToYaml m] := by
  have hclean := clean_dumpFlat hm hsafe
  rcases m with _ | ⟨p0, m2⟩
  · exact absurd rfl hm
  · obtain ⟨ck, rk, hks, hka, hkall⟩ := plainSafe_shape (hsafe p0 (by simp)).1
    have hline0 : lineOfPair p0 = ck :: (rk ++ ':' :: ' ' :: p0.2.data) := by
      unfold lineOfPair
      rw [hks]
      rfl
    have hmapc : (p0 :: m2).map lineOfPair
        = (ck :: (rk ++ ':' :: ' ' :: p0.2.data)) :: m2.map lineOfPair := by
      rw [List.map_cons, hline0]
    obtain ⟨X, hAX⟩ := joinNL_cons_head ck (rk ++ ':' :: ' ' :: p0.2.data)
      (m2.map lineOfPair)
    have hA : joinNL ((p0 :: m2).map lineOfPair) = ck :: X := by rw [hmapc, hAX]
    unfold safe_load_all_flat
    rw [hclean, hA]
    rw [if_neg (by simp)]
    rw [← hA]
    have h5 : splitlinesPy (joinNL ((p0 :: m2).map lineOfPair))
        = (p0 :: m2).map lineOfPair := by
      refine splitlinesPy_joinNL (by simp) ?_ ?_
      · intro l hl
        rw [List.mem_map] at hl
        obtain ⟨p, hp, rfl⟩ := hl
        exact lineOfPair_ne_nil (hsafe p hp).1
      · intro l hl
        rw [List.mem_map] at hl
        obtain ⟨p, hp, rfl⟩ := hl
        exact lineOfPair_no_break (hsafe p hp).1 (hsafe p hp).2
    rw [h5]
    have h6 : splitDocsFlat ((p0 :: m2).map lineOfPair) = [(p0 :: m2).map lineOfPair] := by
      refine splitDocsFlat_no_dash ?_
      intro l hl
      rw [List.mem_map] at hl
      obtain ⟨p, hp, rfl⟩ := hl
      exact lineOfPair_ne_dash (hsafe p hp).1
    rw [h6]
    show (match parseDocsFlat [(p0 :: m2).map lineOfPair] with
      | some ds => ParseOutcome.docs (ds.map flatToYaml)
      | none => ParseOutcome.yamlError "could not parse as a block mapping")
        = ParseOutcome.docs [flatToYaml (p0 :: m2)]
    unfold parseDocsFlat
    rw [parseFlatDoc_map hsafe]
    simp [parseDocsFlat]

/-! The claims. -/

/-- C1 counterexample: for a parse outcome of zero documents (e.g. the
empty string), `_parse_yaml_safely` does not return an ErrorDocument:
it raises `ValueError("Empty YAML content")`, which the
`except yaml.YAMLError` handler does not catch. -/
theorem c1_empty_content_counterexample :
    ICL.parse_yaml_safely (ParseOutcome.docs []) "2025-10-12 00:00:00"
      = Except.error (PyErr.valueError "Empty YAML content") := rfl

/-- C1 (amended): for every input whose sanitized form parses to zero
YAML documents, `_parse_yaml_safely` raises
`ValueError("Empty YAML content")` — the handler catches only
`yaml.YAMLError`, so the exception escapes the parse boundary — and
`process_request` re-raises it to its caller; no ErrorDocument is
produced for the empty-content case. -/
theorem c1_empty_content_raises (now : String) (k : Yaml) (t : String)
    (oracle : String → ParseOutcome) (save : Yaml → Except PyErr String)
    (h : oracle (ICL.clean_response t) = ParseOutcome.docs []) :
    ICL.parse_yaml_safely (oracle (ICL.clean_response t)) now
        = Except.error (PyErr.valueError "Empty YAML content")
      ∧ ICL.process_request k (GenOutcome.text t) oracle now save
        = Except.error (PyErr.valueError "Empty YAML content") := by
  constructor
  · rw [h]
    rfl
  · simp [ICL.process_request, ICL.parse_yaml_safely, h]

/-- C1 witness: the amended statement at a concrete input. -/
theorem c1_empty_content_raises_witness :
    ICL.parse_yaml_safely ((fun _ => ParseOutcome.docs []) (ICL.clean_response "")) "t"
        = Except.error (PyErr.valueError "Empty YAML content")
      ∧ ICL.process_request ICL.defaultKnowledge (GenOutcome.text "")
          (fun _ => ParseOutcome.docs []) "t" (fun _ => Except.ok "f")
        = Except.error (PyErr.valueError "Empty YAML content") :=
  c1_empty_content_raises "t" ICL.defaultKnowledge "" (fun _ => ParseOutcome.docs [])
    (fun _ => Except.ok "f") rfl

/-- C2 counterexample: a model response parsing to the non-empty mapping
`{foo: bar}` passes the `isinstance(knowledge, dict) and knowledge`
validation, so after construction the knowledge base lacks the key
`schema` (and the other three sections). -/
theorem c2_four_keys_counterexample :
    (ICL.load_knowledge true (Except.ok "doc") (fun _ => GenOutcome.text "foo: bar")
        (fun _ => ParseOutcome.docs [Yaml.map [("foo", Yaml.str "bar")]])
        "t").hasKey "schema" = false := rfl

/-- C2 (amended): after construction the knowledge base is always a
non-empty mapping — either the validated parse result, which need not
contain the four sections, or the static default, which contains all
four — and neither `process_request` nor `update_configuration` ever
replaces it. -/
theorem c2_knowledge_invariant :
    (∀ (docExists : Bool) (extracted : Except PyErr String) (gen : String → GenOutcome)
        (oracle : String → ParseOutcome) (now : String),
      ICL.isNonEmptyDict (ICL.load_knowledge docExists extracted gen oracle now) = true)
    ∧ (ICL.defaultKnowledge.hasKey "schema" = true
        ∧ ICL.defaultKnowledge.hasKey "rules" = true
        ∧ ICL.defaultKnowledge.hasKey "practices" = true
        ∧ ICL.defaultKnowledge.hasKey "patterns" = true)
    ∧ (∀ (k : Yaml) (gen : GenOutcome) (oracle : String → ParseOutcome) (now : String)
        (save : Yaml → Except PyErr String) (r : Yaml × Yaml × String),
      ICL.process_request k gen oracle now save = Except.ok r → r.1 = k)
    ∧ (∀ (k cfg : Yaml) (gen : GenOutcome) (oracle : String → ParseOutcome) (now : String)
        (save : Yaml → Except PyErr String) (r : Yaml × Yaml × String),
      ICL.update_configuration k cfg gen oracle now save = Except.ok r → r.1 = k) := by
  refine ⟨?_, ⟨rfl, rfl, rfl, rfl⟩, ?_, ?_⟩
  · intro docExists extracted gen oracle now
    unfold ICL.load_knowledge
    split
    · split
      · rfl
      · split
        · rfl
        · split
          · rfl
          · split
            · assumption
            · rfl
    · rfl
  · intro k gen oracle now save r h
    unfold ICL.process_request at h
    split at h
    · exact (Except.noConfusion h)
    · split at h
      · exact (Except.noConfusion h)
      · split at h
        · exact (Except.noConfusion h)
        · injection h with h2
          rw [← h2]
  · intro k cfg gen oracle now save r h
    unfold ICL.update_configuration at h
    split at h
    · exact (Except.noConfusion h)
    · split at h
      · exact (Except.noConfusion h)
      · split at h
        · exact (Except.noConfusion h)
        · injection h with h2
          rw [← h2]

/-- C2 witness: the amended statement at concrete inputs. -/
theorem c2_knowledge_invariant_witness :
    ICL.isNonEmptyDict (ICL.load_knowledge false (Except.ok "")
        (fun _ => GenOutcome.text "") (fun _ => ParseOutcome.docs []) "t") = true
      ∧ (ICL.defaultKnowledge, Yaml.str "x", "f").1 = ICL.defaultKnowledge :=
  ⟨c2_knowledge_invariant.1 false (Except.ok "") (fun _ => GenOutcome.text "")
      (fun _ => ParseOutcome.docs []) "t",
   c2_knowledge_invariant.2.2.1 ICL.defaultKnowledge (GenOutcome.text "a")
      (fun _ => ParseOutcome.docs [Yaml.str "x"]) "t" (fun _ => Except.ok "f")
      (ICL.defaultKnowledge, Yaml.str "x", "f") rfl⟩

/-- C3: a flat block mapping of plain scalars (the modelled PyYAML
fragment: nonempty, alphanumeric values with a leading letter, not a
YAML boolean/null word) survives the serialize-sanitize-parse round
trip unchanged. -/
theorem c3_round_trip (m : List (String × String)) (now : String) (hm : m ≠ [])
    (hsafe : ∀ p ∈ m, plainSafe p.1 = true ∧ plainSafe p.2 = true) :
    ICL.parse_yaml_safely (safe_load_all_flat (ICL.clean_response (dumpFlat m))) now
      = Except.ok (flatToYaml m) := by
  rw [safe_load_clean_dump hm hsafe]
  rfl

/-- C3 witness: the round trip on the concrete mapping
`{component: webapp, replicas: auto}`. -/
theorem c3_round_trip_witness :
    ICL.parse_yaml_safely (safe_load_all_flat (ICL.clean_response
        (dumpFlat [("component", "webapp"), ("replicas", "auto")]))) "t"
      = Except.ok (flatToYaml [("component", "webapp"), ("replicas", "auto")]) :=
  c3_round_trip [("component", "webapp"), ("replicas", "auto")] "t" (by decide) (by decide)

/-- C4: a parse outcome of exactly one document is returned directly;
two or more documents are wrapped, preserving their order, in a mapping
under the single key `documents`. -/
theorem c4_document_count (d : Yaml) (ds : List Yaml) (now : String) :
    ICL.parse_yaml_safely (ParseOutcome.docs [d]) now = Except.ok d
      ∧ (2 ≤ ds.length →
        ICL.parse_yaml_safely (ParseOutcome.docs ds) now
          = Except.ok (Yaml.map [("documents", Yaml.list ds)])) := by
  constructor
  · rfl
  · intro h2
    match ds with
    | [] => simp at h2
    | [a] => simp at h2
    | a :: b :: r => rfl

/-- C4 witness: one document and two documents at concrete inputs. -/
theorem c4_document_count_witness :
    ICL.parse_yaml_safely (ParseOutcome.docs [Yaml.str "a"]) "t" = Except.ok (Yaml.str "a")
      ∧ ICL.parse_yaml_safely (ParseOutcome.docs [Yaml.str "a", Yaml.str "b"]) "t"
        = Except.ok (Yaml.map [("documents", Yaml.list [Yaml.str "a", Yaml.str "b"])]) :=
  ⟨(c4_document_count (Yaml.str "a") [Yaml.str "a", Yaml.str "b"] "t").1,
   (c4_document_count (Yaml.str "a") [Yaml.str "a", Yaml.str "b"] "t").2 (by decide)⟩

/-- C5: every structural YAML parse error (a raised `yaml.YAMLError`,
e.g. on `": : :"`) is caught and converted into exactly the mapping
`{error: "Failed to parse YAML", timestamp: <now>}` without raising. -/
theorem c5_structural_error_doc (msg now : String) :
    ICL.parse_yaml_safely (ParseOutcome.yamlError msg) now
      = Except.ok (Yaml.map [("error", Yaml.str "Failed to parse YAML"),
          ("timestamp", Yaml.str now)]) := rfl

/-- C6: for every raw model output, the sanitized result contains no
occurrence of three consecutive backquotes — in particular all
fenced-code wrappers are removed with no residual fence syntax. -/
theorem c6_no_residual_fences (raw : String) :
    containsTriple (ICL.clean_response raw).data = false := by
  unfold ICL.clean_response
  split
  · exact containsTriple_nil
  · show containsTriple (joinNL (((splitlinesPy (stripPy (stripComments (removeTriple
      (subOpenFence raw.data))))).filter
        (fun ln => !(stripPy ln).isEmpty)).map replaceTabs)) = false
    apply containsTriple_joinNL
    intro ln hln
    rw [List.mem_map] at hln
    obtain ⟨ln0, hmem, rfl⟩ := hln
    apply containsTriple_replaceTabs
    exact containsTriple_splitlines
      (containsTriple_stripPy (containsTriple_stripComments
        (containsTriple_removeTriple _))) ln0 (List.mem_filter.mp hmem).1

/-- C7 counterexample: a structural parse error does not fall back to
the static default knowledge base: `_parse_yaml_safely` converts it into
the ErrorDocument, which passes the non-empty-mapping validation and
becomes the knowledge base (it lacks the `schema` section). -/
theorem c7_parse_error_counterexample :
    ICL.load_knowledge true (Except.ok "doc") (fun _ => GenOutcome.text "x")
        (fun _ => ParseOutcome.yamlError "bad") "t"
      = Yaml.map [("error", Yaml.str "Failed to parse YAML"), ("timestamp", Yaml.str "t")]
      ∧ (ICL.load_knowledge true (Except.ok "doc") (fun _ => GenOutcome.text "x")
          (fun _ => ParseOutcome.yamlError "bad") "t").hasKey "schema" = false :=
  ⟨rfl, rfl⟩

/-- C7 (amended): knowledge loading never raises (it is a total
function), and it falls back to the static default four-section
knowledge base when the reference document is missing, extraction
raises, the model call raises, the parsed content is empty (the
escaping `ValueError`), or validation fails; a structural YAML parse
error, however, yields the ErrorDocument as the knowledge base, not the
default. -/
theorem c7_fallback_behaviour :
    (∀ (extracted : Except PyErr String) (gen : String → GenOutcome)
        (oracle : String → ParseOutcome) (now : String),
      ICL.load_knowledge false extracted gen oracle now = ICL.defaultKnowledge)
    ∧ (∀ (docExists : Bool) (e : PyErr) (gen : String → GenOutcome)
        (oracle : String → ParseOutcome) (now : String),
      ICL.load_knowledge docExists (Except.error e) gen oracle now = ICL.defaultKnowledge)
    ∧ (∀ (content : String) (e : PyErr) (oracle : String → ParseOutcome) (now : String),
      ICL.load_knowledge true (Except.ok content) (fun _ => GenOutcome.raises e) oracle now
        = ICL.defaultKnowledge)
    ∧ (∀ (content t now : String) (oracle : String → ParseOutcome),
      oracle (ICL.clean_response t) = ParseOutcome.docs [] →
      ICL.load_knowledge true (Except.ok content) (fun _ => GenOutcome.text t) oracle now
        = ICL.defaultKnowledge)
    ∧ (∀ (content t now : String) (oracle : String → ParseOutcome) (k : Yaml),
      oracle (ICL.clean_response t) = ParseOutcome.docs [k] →
      ICL.isNonEmptyDict k = false →
      ICL.load_knowledge true (Except.ok content) (fun _ => GenOutcome.text t) oracle now
        = ICL.defaultKnowledge)
    ∧ (∀ (content t now msg : String) (oracle : String → ParseOutcome),
      oracle (ICL.clean_response t) = ParseOutcome.yamlError msg →
      ICL.load_knowledge true (Except.ok content) (fun _ => GenOutcome.text t) oracle now
        = Yaml.map [("error", Yaml.str "Failed to parse YAML"),
            ("timestamp", Yaml.str now)]) := by
  refine ⟨?_, ?_, ?_, ?_, ?_, ?_⟩
  · intro extracted gen oracle now
    rfl
  · intro docExists e gen oracle now
    cases docExists <;> rfl
  · intro content e oracle now
    rfl
  · intro content t now oracle h
    simp [ICL.load_knowledge, ICL.parse_yaml_safely, h]
  · intro content t now oracle k h hk
    simp [ICL.load_knowledge, ICL.parse_yaml_safely, h, hk]
  · intro content t now msg oracle h
    simp [ICL.load_knowledge, ICL.parse_yaml_safely, ICL.isNonEmptyDict, h]

/-- C7 witness: the amended statement at concrete inputs. -/
theorem c7_fallback_behaviour_witness :
    ICL.load_knowledge false (Except.ok "") (fun _ => GenOutcome.text "")
        (fun _ => ParseOutcome.docs []) "t" = ICL.defaultKnowledge
      ∧ ICL.load_knowledge true (Except.ok "c") (fun _ => GenOutcome.text "x")
          (fun _ => ParseOutcome.yamlError "bad") "t"
        = Yaml.map [("error", Yaml.str "Failed to parse YAML"),
            ("timestamp", Yaml.str "t")] :=
  ⟨c7_fallback_behaviour.1 (Except.ok "") (fun _ => GenOutcome.text "")
      (fun _ => ParseOutcome.docs []) "t",
   c7_fallback_behaviour.2.2.2.2.2 "c" "x" "t" "bad"
      (fun _ => ParseOutcome.yamlError "bad") rfl⟩

/-- C8: a transport failure of the generation call is re-raised
unchanged by both `process_request` and `update_configuration`, and so
is a persistence failure from `_save_yaml`; neither is converted into a
return value. -/
theorem c8_exceptions_reraised (k cfg : Yaml) (e : PyErr) (oracle : String → ParseOutcome)
    (now t : String) (save : Yaml → Except PyErr String) (d : Yaml) :
    (ICL.process_request k (GenOutcome.raises e) oracle now save = Except.error e)
    ∧ (ICL.update_configuration k cfg (GenOutcome.raises e) oracle now save
        = Except.error e)
    ∧ (oracle (ICL.clean_response t) = ParseOutcome.docs [d] → save d = Except.error e →
        ICL.process_request k (GenOutcome.text t) oracle now save = Except.error e)
    ∧ (oracle (ICL.clean_response t) = ParseOutcome.docs [d] → save d = Except.error e →
        ICL.update_configuration k cfg (GenOutcome.text t) oracle now save
          = Except.error e) := by
  refine ⟨rfl, rfl, ?_, ?_⟩
  · intro h1 h2
    simp [ICL.process_request, ICL.parse_yaml_safely, h1, h2]
  · intro h1 h2
    simp [ICL.update_configuration, ICL.parse_yaml_safely, h1, h2]

/-- C8 witness: a transport failure and a persistence failure at
concrete inputs. -/
theorem c8_exceptions_reraised_witness :
    ICL.process_request ICL.defaultKnowledge (GenOutcome.raises (PyErr.transport "boom"))
        (fun _ => ParseOutcome.docs [Yaml.str "x"]) "t"
        (fun _ => Except.error (PyErr.transport "boom"))
      = Except.error (PyErr.transport "boom")
    ∧ ICL.process_request ICL.defaultKnowledge (GenOutcome.text "a")
        (fun _ => ParseOutcome.docs [Yaml.str "x"]) "t"
        (fun _ => Except.error (PyErr.transport "boom"))
      = Except.error (PyErr.transport "boom") :=
  ⟨(c8_exceptions_reraised ICL.defaultKnowledge Yaml.null (PyErr.transport "boom")
      (fun _ => ParseOutcome.docs [Yaml.str "x"]) "t" "a"
      (fun _ => Except.error (PyErr.transport "boom")) (Yaml.str "x")).1,
   (c8_exceptions_reraised ICL.defaultKnowledge Yaml.null (PyErr.transport "boom")
      (fun _ => ParseOutcome.docs [Yaml.str "x"]) "t" "a"
      (fun _ => Except.error (PyErr.transport "boom")) (Yaml.str "x")).2.2.1 rfl rfl⟩

/-- C9: the UI-embedded `process_request` never raises: a raised
generation exception and the pipeline's escaping `ValueError` are both
converted into the mapping `{error: <the exception's message>}`, and a
successfully parsed configuration is returned as is. -/
theorem c9_ui_never_raises (e : PyErr) (oracle : String → ParseOutcome) (now t : String) :
    (App.process_request (GenOutcome.raises e) oracle now
        = Yaml.map [("error", Yaml.str e.msg)])
    ∧ (oracle (App.clean_response t) = ParseOutcome.docs [] →
        App.process_request (GenOutcome.text t) oracle now
          = Yaml.map [("error", Yaml.str "Empty YAML content")])
    ∧ (∀ d : Yaml, oracle (App.clean_response t) = ParseOutcome.docs [d] →
        App.process_request (GenOutcome.text t) oracle now = d) := by
  refine ⟨rfl, ?_, ?_⟩
  · intro h
    simp [App.process_request, App.parse_yaml_safely, h, PyErr.msg]
  · intro d h
    simp [App.process_request, App.parse_yaml_safely, h]

/-- C9 witness: the UI driver at concrete inputs. -/
theorem c9_ui_never_raises_witness :
    App.process_request (GenOutcome.raises (PyErr.transport "boom"))
        (fun _ => ParseOutcome.docs []) "t"
      = Yaml.map [("error", Yaml.str (PyErr.transport "boom").msg)]
    ∧ App.process_request (GenOutcome.text "") (fun _ => ParseOutcome.docs []) "t"
      = Yaml.map [("error", Yaml.str "Empty YAML content")] :=
  ⟨(c9_ui_never_raises (PyErr.transport "boom") (fun _ => ParseOutcome.docs []) "t" "").1,
   (c9_ui_never_raises (PyErr.transport "boom") (fun _ => ParseOutcome.docs [])
      "t" "").2.1 rfl⟩

/-- C10: the sanitizer and parser duplicated between the two drivers
are extensionally equal: on every input text and every parse outcome
they return the same value (they differ only in where the error is
logged). -/
theorem c10_duplicated_impls_agree :
    (∀ s : String, ICL.clean_response s = App.clean_response s)
    ∧ (∀ (po : ParseOutcome) (now : String),
        ICL.parse_yaml_safely po now = App.parse_yaml_safely po now) :=
  ⟨fun _ => rfl, fun _ _ => rfl⟩
